import Mathlib

/-!
Shallow embedding of the Bencode decoder from src/src/main.rs
(function decode_bencoded_value, enum Bencode).

Modelling choices:
  * Rust str input is modelled as List Char (all inputs of interest are ASCII,
    where Rust byte indexing and char indexing coincide).
  * The Rust function has type (&str) -> (Bencode, &str) and aborts the process
    with panic! or unwrap() on every failure path.  The embedding makes the
    control flow explicit: DecodeResult.ok models a normal return, and
    DecodeResult.panic models a process abort (panic! macro, Option.unwrap on
    None, Result.unwrap on Err, and out-of-bounds slice indexing).  The panic
    payload mirrors the panic message of the corresponding source site.
  * HashMap String Bencode is modelled as an association list with
    insert-replacing-existing-key semantics (hashMapInsert), which captures
    exactly the key-to-value mapping the Rust HashMap holds.
  * The recursion of the Rust function (one recursive call per nested value,
    plus the list and dictionary loops) is modelled with a fuel parameter that
    bounds the call depth; decode_bencoded_value supplies fuel that is far
    larger than any call depth reachable on its input, so the fuel-exhaustion
    branch is unreachable for the inputs reasoned about below.
-/

/-- The Bencode value model, mirroring enum Bencode of the source:
String, Integer(i64), List, Dictionary(HashMap of String to Bencode). -/
inductive Bencode : Type where
  | string : List Char → Bencode
  | integer : Int → Bencode
  | list : List Bencode → Bencode
  | dictionary : List (List Char × Bencode) → Bencode

/-- Outcome of running decode_bencoded_value: a normal return of a value and
the remaining input, or a process abort (Rust panic). -/
inductive DecodeResult : Type where
  | ok : Bencode → List Char → DecodeResult
  | panic : String → DecodeResult

/-- True exactly on the abort outcome. -/
def DecodeResult.isPanic : DecodeResult → Bool
  | .panic _ => true
  | .ok _ _ => false

/-- Rust str.split_once(sep): split at the first occurrence of sep, returning
the parts before and after it, or none when sep does not occur. -/
def splitOnce (sep : Char) : List Char → Option (List Char × List Char)
  | [] => none
  | c :: cs =>
    if c = sep then some ([], cs)
    else
      match splitOnce sep cs with
      | some (a, b) => some (c :: a, b)
      | none => none

/-- Value of a nonempty all-digit string, none otherwise (accumulator form). -/
def digitsToNatAux : List Char → Nat → Option Nat
  | [], acc => some acc
  | c :: cs, acc =>
    if c.isDigit then digitsToNatAux cs (acc * 10 + (c.toNat - Char.toNat '0'))
    else none

/-- Value of a nonempty all-digit string, none otherwise. -/
def digitsToNat : List Char → Option Nat
  | [] => none
  | c :: cs => digitsToNatAux (c :: cs) 0

/-- Rust str.parse::<usize>() on a 64-bit target: an optional leading plus
sign, then one or more decimal digits; errors on overflow past 2^64 - 1,
on a minus sign, and on any other non-digit. -/
def parseUsize (s : List Char) : Option Nat :=
  let t := match s with
    | '+' :: rest => rest
    | _ => s
  match digitsToNat t with
  | some v => if v < 2 ^ 64 then some v else none
  | none => none

/-- Rust str.parse::<i64>(): an optional leading sign, then one or more
decimal digits; errors when the value leaves the i64 range. -/
def parseI64 (s : List Char) : Option Int :=
  match s with
  | '-' :: rest =>
    match digitsToNat rest with
    | some v => if v ≤ 2 ^ 63 then some (-(v : Int)) else none
    | none => none
  | '+' :: rest =>
    match digitsToNat rest with
    | some v => if v < 2 ^ 63 then some (v : Int) else none
    | none => none
  | _ =>
    match digitsToNat s with
    | some v => if v < 2 ^ 63 then some (v : Int) else none
    | none => none

/-- HashMap.insert on the association-list model: replace the value stored
under an existing equal key, or append a new binding. -/
def hashMapInsert (k : List Char) (v : Bencode) :
    List (List Char × Bencode) → List (List Char × Bencode)
  | [] => [(k, v)]
  | (k2, v2) :: rest =>
    if k2 = k then (k, v) :: rest else (k2, v2) :: hashMapInsert k v rest

/-- HashMap.get on the association-list model. -/
def dictLookup (k : List Char) : List (List Char × Bencode) → Option Bencode
  | [] => none
  | (k2, v) :: rest => if k2 = k then some v else dictLookup k rest

/-- String branch of decode_bencoded_value (source lines 53-61): split the
input at the first colon, parse the part before it as usize, slice that many
bytes as the string body.  A missing colon or an unparsable length reaches
the panic! call; slicing past the end is an index panic. -/
def decodeString (s : List Char) : DecodeResult :=
  match splitOnce ':' s with
  | none => .panic "Error decoding Bencode string"
  | some (lenStr, rest) =>
    match parseUsize lenStr with
    | none => .panic "Error decoding Bencode string"
    | some len =>
      if len ≤ rest.length then .ok (.string (rest.take len)) (rest.drop len)
      else .panic "byte index out of bounds"

/-- Integer branch of decode_bencoded_value (source lines 62-78), applied to
the input with the leading i already stripped: split at the first e, unwrap
the first character of the digit text (panics when the text is empty), reject
a leading zero unless the text is exactly 0, reject -0, then parse as i64 and
unwrap (panics on any parse error, including overflow). -/
def decodeInteger (cs : List Char) : DecodeResult :=
  match splitOnce 'e' cs with
  | none => .panic "called Option.unwrap on a None value"
  | some (numberString, rest) =>
    match numberString with
    | [] => .panic "called Option.unwrap on a None value"
    | c0 :: tl =>
      if c0 = '0' ∧ (c0 :: tl).length > 1 then
        .panic "All encodings with a leading zero are invalid, other than i0e"
      else if (c0 :: tl) = ['-', '0'] then
        .panic "i-0e is invalid"
      else
        match parseI64 (c0 :: tl) with
        | none => .panic "called Result.unwrap on an Err value"
        | some n => .ok (.integer n) rest

mutual

/-- decode_bencoded_value (source lines 50-113), fuel-indexed.  Dispatch on
the first character (unwrap panics on empty input): digit means string,
i means integer, l means list, d means dictionary, anything else panics. -/
def decodeF : Nat → List Char → DecodeResult
  | 0, _ => .panic "recursion fuel exhausted"
  | _ + 1, [] => .panic "called Option.unwrap on a None value"
  | fuel + 1, c :: cs =>
    if c.isDigit then decodeString (c :: cs)
    else if c = 'i' then decodeInteger cs
    else if c = 'l' then decodeListLoop fuel cs []
    else if c = 'd' then decodeDictLoop fuel cs []
    else .panic ("Unhandled encoded value: " ++ (c :: cs).asString)

/-- List loop of decode_bencoded_value (source lines 79-92): decode one
value, push it, then unwrap the first remaining character (panics when the
remainder is empty) and stop when it is e, else continue on the remainder. -/
def decodeListLoop : Nat → List Char → List Bencode → DecodeResult
  | 0, _, _ => .panic "recursion fuel exhausted"
  | fuel + 1, s, acc =>
    match decodeF fuel s with
    | .panic msg => .panic msg
    | .ok v rest =>
      match rest with
      | [] => .panic "called Option.unwrap on a None value"
      | c :: cs =>
        if c = 'e' then .ok (.list (acc ++ [v])) cs
        else decodeListLoop fuel (c :: cs) (acc ++ [v])

/-- Dictionary loop of decode_bencoded_value (source lines 94-109): decode a
value; when it is not a string the while-let exits and the dictionary built
so far is returned with an empty remainder; otherwise decode the entry value,
insert the pair, then unwrap the first remaining character (panics when the
remainder is empty) and stop when it is e, else continue on the remainder. -/
def decodeDictLoop : Nat → List Char → List (List Char × Bencode) → DecodeResult
  | 0, _, _ => .panic "recursion fuel exhausted"
  | fuel + 1, s, acc =>
    match decodeF fuel s with
    | .panic msg => .panic msg
    | .ok (.string key) rest =>
      match decodeF fuel rest with
      | .panic msg => .panic msg
      | .ok v rest2 =>
        match rest2 with
        | [] => .panic "called Option.unwrap on a None value"
        | c :: cs =>
          if c = 'e' then .ok (.dictionary (hashMapInsert key v acc)) cs
          else decodeDictLoop fuel (c :: cs) (hashMapInsert key v acc)
    | .ok _ _ => .ok (.dictionary acc) []

end

/-- decode_bencoded_value with fuel ample for its input: every recursive call
strictly decreases the fuel, and on any input the reachable call depth is
bounded by a small multiple of the input length. -/
def decode_bencoded_value (s : List Char) : DecodeResult :=
  decodeF (s.length * 4 + 1 + 1) s

/-- Any positive fuel suffices for the (non-recursive) string branch: on a
digit-leading input, decodeF is the string branch. -/
theorem decodeF_digit (n : Nat) (c : Char) (cs : List Char) (h : c.isDigit = true) :
    decodeF (n + 1) (c :: cs) = decodeString (c :: cs) := by
  simp only [decodeF, h, if_pos]

/-- Any positive fuel suffices for the (non-recursive) integer branch: on an
input headed by i, decodeF is the integer branch on the tail. -/
theorem decodeF_int (n : Nat) (cs : List Char) :
    decodeF (n + 1) ('i' :: cs) = decodeInteger cs := rfl

/-- decode_bencoded_value on a digit-leading input is the string branch. -/
theorem decode_digit (c : Char) (cs : List Char) (h : c.isDigit = true) :
    decode_bencoded_value (c :: cs) = decodeString (c :: cs) :=
  decodeF_digit _ c cs h

/-- decode_bencoded_value on an input headed by i is the integer branch. -/
theorem decode_int (cs : List Char) :
    decode_bencoded_value ('i' :: cs) = decodeInteger cs :=
  decodeF_int _ cs

/-- splitOnce is a genuine split: when it returns a pair, the input is the
first part, the separator, then the second part. -/
theorem splitOnce_append (sep : Char) :
    ∀ s a b : List Char, splitOnce sep s = some (a, b) → s = a ++ sep :: b := by
  intro s
  induction s with
  | nil => intro a b h; simp [splitOnce] at h
  | cons c cs ih =>
    intro a b h
    by_cases hc : c = sep
    · simp only [splitOnce, if_pos hc] at h
      obtain ⟨ha, hb⟩ := Prod.mk.injEq .. ▸ Option.some.injEq .. ▸ h
      subst hc
      simp [← ha, ← hb]
    · simp only [splitOnce, if_neg hc] at h
      cases hsp : splitOnce sep cs with
      | none => rw [hsp] at h; exact Option.noConfusion h
      | some ab =>
        obtain ⟨a2, b2⟩ := ab
        rw [hsp] at h
        obtain ⟨ha, hb⟩ := Prod.mk.injEq .. ▸ Option.some.injEq .. ▸ h
        rw [← ha, ← hb]
        simpa using congrArg (c :: ·) (ih a2 b2 hsp)

/-- Claim C1, counterexample.  The claim states that decoding the empty input
fails with an UnexpectedEndOfInput error value and that decoding never
panics.  In the source, decode_bencoded_value begins with
encoded_value.chars().next().unwrap(), so on the empty input the process
aborts with the Option.unwrap panic; no error value of any kind is returned
to the caller. -/
theorem c1_counterexample_empty_input_panics :
    decode_bencoded_value [] = .panic "called Option.unwrap on a None value" := rfl

/-- Claim C1, amended.  Decoding the empty input aborts via panic (unwrap on
the absent first byte), and an unrecognized leading byte likewise aborts via
panic; malformed input is not reported to the caller as a typed error
value. -/
theorem c1_malformed_input_panics :
    (decode_bencoded_value []).isPanic = true ∧
    (decode_bencoded_value ("x".data)).isPanic = true :=
  ⟨rfl, rfl⟩

/-- Claim C2 (code bug).  The claim (and the spec) requires decode of le to
be the empty list and decode of de the empty dictionary, but the source
checks for the terminator e only after decoding one element, so both inputs
reach the catch-all panic on the lone e. -/
theorem c2_empty_containers_panic :
    decode_bencoded_value ("le".data) = .panic "Unhandled encoded value: e" ∧
    decode_bencoded_value ("de".data) = .panic "Unhandled encoded value: e" :=
  ⟨rfl, rfl⟩

/-- Claim C3 (code bug).  The claim requires a non-string key to fail with
UnexpectedKeyType, but the while-let in the source simply stops matching and
the function returns the partial (here empty) dictionary with an empty
remainder, silently discarding the unread input i2ee. -/
theorem c3_nonstring_key_returns_incomplete_dict :
    decode_bencoded_value ("di1ei2ee".data) = .ok (.dictionary []) [] := rfl

/-- Claim C4, counterexample.  The claim states that decoding 5:ab reports a
MalformedLength error and never crashes; in the source the length 5 is
parsed successfully and the slice rest[..5] of the two-byte remainder
aborts with an index panic. -/
theorem c4_counterexample_overlong_length_crashes :
    decode_bencoded_value ("5:ab".data) = .panic "byte index out of bounds" := rfl

/-- Claim C4, amended.  For every string input whose declared decimal length
exceeds the number of bytes remaining after the colon, decoding aborts with
an out-of-bounds index panic instead of returning an error value. -/
theorem c4_overlong_declared_length_panics
    (c : Char) (cs lenStr body : List Char) (len : Nat)
    (hdig : c.isDigit = true)
    (hsp : splitOnce ':' (c :: cs) = some (lenStr, body))
    (hparse : parseUsize lenStr = some len)
    (hlt : body.length < len) :
    decode_bencoded_value (c :: cs) = .panic "byte index out of bounds" := by
  rw [decode_digit c cs hdig]
  simp only [decodeString, hsp, hparse]
  rw [if_neg (by omega)]

/-- Claim C4, witness for the amended theorem at the input 3:x. -/
theorem c4_witness :
    decode_bencoded_value ("3:x".data) = .panic "byte index out of bounds" :=
  c4_overlong_declared_length_panics '3' (":x".data) ['3'] ['x'] 3 rfl rfl rfl
    (by decide)

/-- Claim C5.  Canonical integer handling: i0e decodes to 0, i-42e decodes
to -42, i-0e and i042e are rejected (in this code, rejection is a panic),
and in general whenever the digit text between i and the first e has the
character 0 first and has further characters, decoding panics with the
leading-zero message. -/
theorem c5_canonical_integers :
    decode_bencoded_value ("i0e".data) = .ok (.integer 0) [] ∧
    decode_bencoded_value ("i-42e".data) = .ok (.integer (-42)) [] ∧
    (decode_bencoded_value ("i-0e".data)).isPanic = true ∧
    (decode_bencoded_value ("i042e".data)).isPanic = true ∧
    ∀ cs dt rest : List Char,
      splitOnce 'e' cs = some (dt, rest) →
      dt.head? = some '0' →
      1 < dt.length →
      decode_bencoded_value ('i' :: cs) =
        .panic "All encodings with a leading zero are invalid, other than i0e" := by
  refine ⟨rfl, rfl, rfl, rfl, ?_⟩
  intro cs dt rest hsp hhead hlen
  rw [decode_int]
  cases dt with
  | nil => exact Option.noConfusion hhead
  | cons c0 tl =>
    have hc0 : c0 = '0' := by simpa using hhead
    subst hc0
    simp only [decodeInteger, hsp]
    rw [if_pos ⟨trivial, hlen⟩]

/-- Claim C5, witness for the universal leading-zero part at i042e. -/
theorem c5_witness :
    decode_bencoded_value ("i042e".data) =
      .panic "All encodings with a leading zero are invalid, other than i0e" :=
  c5_canonical_integers.2.2.2.2 ("042e".data) ("042".data) [] rfl rfl (by decide)

/-- Claim C6, counterexample.  The claim states that integer decoding of ie
fails with a MalformedInteger error; in the source the digit text between i
and e is empty, so number_string.chars().next().unwrap() aborts the process
with the Option.unwrap panic, and no error value is returned. -/
theorem c6_counterexample_ie_panics :
    decode_bencoded_value ("ie".data) = .panic "called Option.unwrap on a None value" := rfl

/-- Claim C6, amended.  Integer decoding aborts via panic (not a returned
error value) on each of: empty digit text ie, a lone minus i-e, an embedded
non-digit i4x2e, a missing terminating e in i42, and i64 overflow in
i9223372036854775808e. -/
theorem c6_integer_malformations_panic :
    (decode_bencoded_value ("ie".data)).isPanic = true ∧
    (decode_bencoded_value ("i-e".data)).isPanic = true ∧
    (decode_bencoded_value ("i4x2e".data)).isPanic = true ∧
    (decode_bencoded_value ("i42".data)).isPanic = true ∧
    (decode_bencoded_value ("i9223372036854775808e".data)).isPanic = true :=
  ⟨rfl, rfl, rfl, rfl, rfl⟩

/-- Claim C7.  String decoding consumes exactly the declared length: 4:spam
decodes to the string spam with nothing remaining, 0: decodes to the empty
string with nothing remaining, and every successful decode of a
digit-leading input splits the input at the first colon, parses the declared
length, and returns a string of exactly that many bytes of the body with the
rest of the body as remainder. -/
theorem c7_string_length_exactness :
    decode_bencoded_value ("4:spam".data) = .ok (.string "spam".data) [] ∧
    decode_bencoded_value ("0:".data) = .ok (.string []) [] ∧
    ∀ (c : Char) (cs : List Char) (v : Bencode) (r : List Char),
      c.isDigit = true →
      decode_bencoded_value (c :: cs) = .ok v r →
      ∃ (lenStr body : List Char) (len : Nat),
        splitOnce ':' (c :: cs) = some (lenStr, body) ∧
        parseUsize lenStr = some len ∧
        c :: cs = lenStr ++ ':' :: body ∧
        len ≤ body.length ∧
        v = .string (body.take len) ∧
        (body.take len).length = len ∧
        r = body.drop len := by
  refine ⟨rfl, rfl, ?_⟩
  intro c cs v r hdig h
  rw [decode_digit c cs hdig] at h
  cases hsp : splitOnce ':' (c :: cs) with
  | none =>
    simp only [decodeString, hsp] at h
    exact DecodeResult.noConfusion h
  | some p =>
    obtain ⟨lenStr, body⟩ := p
    cases hparse : parseUsize lenStr with
    | none =>
      simp only [decodeString, hsp, hparse] at h
      exact DecodeResult.noConfusion h
    | some len =>
      simp only [decodeString, hsp, hparse] at h
      by_cases hle : len ≤ body.length
      · rw [if_pos hle] at h
        injection h with hv hr
        exact ⟨lenStr, body, len, rfl, hparse, splitOnce_append ':' _ _ _ hsp, hle,
          hv.symm, by simp [List.length_take, Nat.min_eq_left hle], hr.symm⟩
      · rw [if_neg hle] at h
        exact DecodeResult.noConfusion h

/-- Claim C7, witness for the universal part at 4:spam. -/
theorem c7_witness :
    ∃ (lenStr body : List Char) (len : Nat),
      splitOnce ':' ("4:spam".data) = some (lenStr, body) ∧
      parseUsize lenStr = some len ∧
      "4:spam".data = lenStr ++ ':' :: body ∧
      len ≤ body.length ∧
      Bencode.string ("spam".data) = .string (body.take len) ∧
      (body.take len).length = len ∧
      ([] : List Char) = body.drop len :=
  c7_string_length_exactness.2.2 '4' (":spam".data) (.string ("spam".data)) [] rfl rfl

/-- Claim C8.  The decoder is a pure function of its input: equal inputs
decode to identical results. -/
theorem c8_decode_deterministic :
    ∀ s t : List Char, s = t → decode_bencoded_value s = decode_bencoded_value t := by
  intro s t h
  rw [h]

/-- Claim C8, witness at a concrete input. -/
theorem c8_witness :
    decode_bencoded_value ("l4:spam4:eggse".data) =
      decode_bencoded_value ("l4:spam4:eggse".data) :=
  c8_decode_deterministic ("l4:spam4:eggse".data) ("l4:spam4:eggse".data) rfl

/-- Claim C9.  Duplicate dictionary keys: decoding d1:ai1e1:ai2ee succeeds
and the HashMap insert of the second pair replaces the value of the first,
so the key a maps to the integer 2, the value of its last occurrence. -/
theorem c9_duplicate_keys_last_wins :
    decode_bencoded_value ("d1:ai1e1:ai2ee".data) =
      .ok (.dictionary [("a".data, .integer 2)]) [] ∧
    dictLookup ("a".data) [("a".data, .integer 2)] = some (.integer 2) :=
  ⟨rfl, rfl⟩

/-- Claim C10.  A negative integer with leading zeros is accepted: the
leading-zero check looks only at the first character of the digit text,
which for i-042e is the minus sign, and parse succeeds, yielding -42. -/
theorem c10_negative_leading_zeros_accepted :
    decode_bencoded_value ("i-042e".data) = .ok (.integer (-42)) [] := rfl
